import Mathlib

/-!
# Verification of the `rsl` share-link resolver and canonicalizer

This file is a shallow embedding, in Lean 4, of the core logic of the `rsl`
program (Rust): the meta-refresh extractor and bounded resolver of
`src/resolve.rs`, and the URL canonicalizer of `src/clean/` (dispatcher plus
the Reddit and Facebook platform rules, and the unregistered Generic rule).

Strings are modelled as lists of characters (`List Char`); the Rust code
indexes by bytes, and on ASCII input (the domain of every property below)
character positions and byte positions coincide, with `Char.toLower`
agreeing with Rust's `str::to_lowercase`.

External collaborators (the `url` parsing crate, the `psl` public-suffix
crate, the HTTP transport, the `backon` retry combinator) are modelled from
the specification's description of the interfaces the core consumes; each
such definition is marked in its doc comment.  Everything else is a direct
translation of the Rust source.
-/

/-! ## Character-list helpers mirroring Rust `str` primitives -/

/-- Rust `str::starts_with(pat)`: `pat` is a prefix of `s`. -/
def startsList : List Char → List Char → Bool
  | [], _ => true
  | _ :: _, [] => false
  | p :: ps, c :: cs => p == c && startsList ps cs

/-- Rust `str::find(pat)`: index of the first occurrence of the substring
`pat` in `hay`, if any. -/
def strFind (pat : List Char) : List Char → Option Nat
  | [] => if startsList pat [] then some 0 else none
  | c :: t => if startsList pat (c :: t) then some 0 else (strFind pat t).map (· + 1)

/-- Rust `str::contains(pat)` (used on already-lowercased text). -/
def containsStr (hay pat : List Char) : Bool := (strFind pat hay).isSome

/-- Rust `str::to_lowercase` restricted to ASCII (length-preserving there). -/
def lowerStr (s : List Char) : List Char := s.map Char.toLower

/-- Rust `str::trim`: drop leading and trailing whitespace. -/
def trimChars (s : List Char) : List Char :=
  ((s.dropWhile Char.isWhitespace).reverse.dropWhile Char.isWhitespace).reverse

/-- Split a character list on a separator character; like Rust
`str::split(sep)`, always yields at least one (possibly empty) piece. -/
def splitOnChar (sep : Char) : List Char → List (List Char)
  | [] => [[]]
  | c :: t =>
    if c == sep then [] :: splitOnChar sep t
    else
      match splitOnChar sep t with
      | [] => [[c]]
      | h :: r => (c :: h) :: r

/-- Interleave a separator character between pieces (inverse of
`splitOnChar` on separator-free pieces). -/
def joinSep (sep : Char) : List (List Char) → List Char
  | [] => []
  | [x] => x
  | x :: y :: t => x ++ sep :: joinSep sep (y :: t)

/-! ## The meta-refresh extractor (`extract_meta_refresh`, src/resolve.rs)

The Rust function is a single block; it is transcribed here as the
composition of the slice of the first `<meta ...>` tag (`firstMetaTag`) with
the per-tag extraction (`tagExtract`), exactly following the source's
nesting. -/

/-- The slice `&html[start..start+end]` of the first case-insensitive
`<meta` tag (up to, excluding, the following `>`), if present
(src/resolve.rs lines 141-147). -/
def firstMetaTag (html : List Char) : Option (List Char) :=
  match strFind ['<', 'm', 'e', 't', 'a'] (lowerStr html) with
  | none => none
  | some start =>
    match strFind ['>'] ((lowerStr html).drop start) with
    | none => none
    | some stop => some ((html.drop start).take stop)

/-- The `content` attribute value of one meta tag slice (src/resolve.rs
lines 150-170): require `http-equiv` and `refresh` case-insensitively,
locate `content=`, and extract the value honouring double-quote /
single-quote / unquoted (whitespace-terminated) delimiting. -/
def contentValue (meta_tag : List Char) : Option (List Char) :=
  if containsStr (lowerStr meta_tag) ['h', 't', 't', 'p', '-', 'e', 'q', 'u', 'i', 'v'] &&
      containsStr (lowerStr meta_tag) ['r', 'e', 'f', 'r', 'e', 's', 'h'] then
    match strFind ['c', 'o', 'n', 't', 'e', 'n', 't', '='] (lowerStr meta_tag) with
    | none => none
    | some content_start =>
      let content_part := meta_tag.drop (content_start + 8)
      let quote_char : Char :=
        if startsList ['"'] content_part then '"'
        else if startsList ['\''] content_part then '\''
        else ' '
      if quote_char != ' ' then
        some ((content_part.drop 1).takeWhile (fun c => c != quote_char))
      else
        let t := content_part.dropWhile Char.isWhitespace
        if t.isEmpty then none else some (t.takeWhile (fun c => !c.isWhitespace))
  else none

/-- The URL inside a `content` value (src/resolve.rs lines 172-180):
search case-insensitively for `url=` and return the trimmed tail; failing
that, fall back to the (case-sensitive) `url=` after the first
semicolon. -/
def urlFromContent (content_value : List Char) : Option (List Char) :=
  match strFind ['u', 'r', 'l', '='] (lowerStr content_value) with
  | some url_start => some (trimChars (content_value.drop (url_start + 4)))
  | none =>
    match strFind [';'] content_value with
    | some semicolon =>
      let url_part := trimChars (content_value.drop (semicolon + 1))
      if startsList ['u', 'r', 'l', '='] url_part then
        some (trimChars (url_part.drop 4))
      else none
    | none => none

/-- Extraction of the redirect target from one meta tag slice
(src/resolve.rs lines 149-182). -/
def tagExtract (meta_tag : List Char) : Option (List Char) :=
  (contentValue meta_tag).bind urlFromContent

/-- `extract_meta_refresh` (src/resolve.rs lines 140-186). -/
def extract_meta_refresh (html : List Char) : Option (List Char) :=
  (firstMetaTag html).bind tagExtract

/-- `extract_meta_refresh` on `String`s, for readable statements. -/
def extract_meta_refresh_str (s : String) : Option String :=
  (extract_meta_refresh s.toList).map (fun l => String.mk l)

/-- `urlFromContent` with the semicolon fallback branch removed (the
comparison point for the claim that the fallback is dead code). -/
def urlFromContentNoFallback (content_value : List Char) : Option (List Char) :=
  match strFind ['u', 'r', 'l', '='] (lowerStr content_value) with
  | some url_start => some (trimChars (content_value.drop (url_start + 4)))
  | none => none

/-- `extract_meta_refresh` with the dead fallback removed. -/
def extract_meta_refresh_no_fallback (html : List Char) : Option (List Char) :=
  (firstMetaTag html).bind (fun t => (contentValue t).bind urlFromContentNoFallback)

/-! ## The resolver (`resolve`, `resolve_helper`, src/resolve.rs)

The HTTP transport is abstracted as an oracle `fetch : String → Except
ResolveError (String × String)` returning, for a requested URL, the final
URL after server-side redirects together with the response body (exactly
the data `resolve_helper` reads from a `reqwest` response), or a transport
error.  Relative-URL resolution (`Url::join`, an external capability) is a
second oracle. -/

/-- Modelled from the spec: the external `url` crate's `ParseError`
variants with their fixed `Display` renderings (the only parse errors
`Url::join` can surface into `resolve_helper`). -/
inductive UrlParseError where
  | emptyHost
  | idnaError
  | invalidPort
  | invalidIpv4Address
  | invalidIpv6Address
  | invalidDomainCharacter
  | relativeUrlWithoutBase
  | relativeUrlWithCannotBeABaseBase
  | setHostOnCannotBeABaseUrl
  | overflow
deriving DecidableEq

/-- Modelled from the spec: the `Display` strings of `url::ParseError`. -/
def UrlParseError.render : UrlParseError → String
  | .emptyHost => "empty host"
  | .idnaError => "invalid international domain name"
  | .invalidPort => "invalid port number"
  | .invalidIpv4Address => "invalid IPv4 address"
  | .invalidIpv6Address => "invalid IPv6 address"
  | .invalidDomainCharacter => "invalid domain character"
  | .relativeUrlWithoutBase => "relative URL without a base"
  | .relativeUrlWithCannotBeABaseBase => "relative URL with a cannot-be-a-base base"
  | .setHostOnCannotBeABaseUrl => "a cannot-be-a-base URL does not have a host to set"
  | .overflow => "URLs more than 4 GB are not supported"

/-- The errors that can flow through `resolve` (boxed `dyn Error` in the
source): the depth-cap message constructed at src/resolve.rs line 51,
transport errors from the `reqwest` collaborator, and `url::ParseError`
from `Url::join` at line 126. -/
inductive ResolveError where
  | tooManyMetaRefresh
  | transport (detail : String)
  | urlParse (e : UrlParseError)
deriving DecidableEq

/-- The rendered message of a `ResolveError` (`e.to_string()` in the
source).  Modelled from the spec for the external variants: every
`reqwest` error `Display` begins with `"error "` (e.g. "error sending
request for url ..."), and `url::ParseError` renders to one of the fixed
strings above. -/
def ResolveError.render : ResolveError → String
  | .tooManyMetaRefresh => "Too many meta refresh redirects"
  | .transport detail => "error " ++ detail
  | .urlParse e => e.render

/-- `resolve_helper` (src/resolve.rs lines 47-135) over a fetch oracle and
a join oracle: fail once `depth > 5`; otherwise issue one GET, and if the
body carries a meta-refresh target, follow it (verbatim when it starts
with "http", else joined onto the final URL) at `depth + 1`. -/
def resolve_helper (fetch : String → Except ResolveError (String × String))
    (join : String → String → Except UrlParseError String)
    (url : String) (depth : Nat) : Except ResolveError String :=
  if depth > 5 then .error .tooManyMetaRefresh
  else
    match fetch url with
    | .error e => .error e
    | .ok (final_url, html) =>
      match extract_meta_refresh html.toList with
      | none => .ok final_url
      | some meta =>
        let meta_url := String.mk meta
        if startsList ['h', 't', 't', 'p'] meta then
          resolve_helper fetch join meta_url (depth + 1)
        else
          match join final_url meta_url with
          | .error e => .error (.urlParse e)
          | .ok joined => resolve_helper fetch join joined (depth + 1)
termination_by 6 - depth
decreasing_by all_goals omega

/-- The number of GET requests `resolve_helper` issues (one per recursion
level that passes the depth guard); same recursion structure as
`resolve_helper`. -/
def request_count (fetch : String → Except ResolveError (String × String))
    (join : String → String → Except UrlParseError String)
    (url : String) (depth : Nat) : Nat :=
  if depth > 5 then 0
  else
    match fetch url with
    | .error _ => 1
    | .ok (final_url, html) =>
      match extract_meta_refresh html.toList with
      | none => 1
      | some meta =>
        let meta_url := String.mk meta
        if startsList ['h', 't', 't', 'p'] meta then
          1 + request_count fetch join meta_url (depth + 1)
        else
          match join final_url meta_url with
          | .error _ => 1
          | .ok joined => 1 + request_count fetch join joined (depth + 1)
termination_by 6 - depth
decreasing_by all_goals omega

/-- Modelled from the spec: the `backon` retry combinator with the
default `ExponentialBuilder` (at most 3 retries after the initial
attempt; delays are irrelevant to the value computed).  `cond` is the
`.when(...)` predicate: a failed attempt is retried only while `cond`
holds of its error and retries remain. -/
def retryWhen (f : Unit → Except ResolveError String)
    (cond : ResolveError → Bool) : Nat → Except ResolveError String
  | 0 => f ()
  | n + 1 =>
    match f () with
    | .ok v => .ok v
    | .error e => if cond e then retryWhen f cond n else .error e

/-- `resolve` (src/resolve.rs lines 13-45): the whole helper wrapped in the
retry combinator, retrying exactly when the error's rendered message equals
the literal string "retryable". -/
def resolve (fetch : String → Except ResolveError (String × String))
    (join : String → String → Except UrlParseError String)
    (url : String) : Except ResolveError String :=
  retryWhen (fun _ => resolve_helper fetch join url 0)
    (fun e => e.render == "retryable") 3

/-! ## The URL value (modelled from the spec)

The spec's URL Value: scheme, host, ordered path segments, ordered query
parameters.  Serialization and parsing model the external `url` crate on
the fragment-free, userinfo-free, port-free, percent-escape-free URLs the
properties below quantify over. -/

/-- Modelled from the spec: the structured URL Value supplied by the
external URL-parsing capability. -/
structure Url where
  scheme : String
  host : String
  pathSegs : List String
  query : List (String × String)
deriving DecidableEq, Repr

/-- Query-pair serialization (`form_urlencoded` without percent escapes). -/
def renderQuery (ps : List (String × String)) : List Char :=
  joinSep '&' (ps.map (fun p => p.1.toList ++ '=' :: p.2.toList))

/-- Modelled from the spec: `Url::to_string` — for an http(s)-style URL the
path always begins with `/`, and the `?` appears exactly when a query is
present. -/
def Url.render (u : Url) : String :=
  String.mk (u.scheme.toList ++ (':' :: '/' :: '/' :: (u.host.toList ++
    ('/' :: (joinSep '/' (u.pathSegs.map String.toList) ++
      (if u.query = [] then [] else '?' :: renderQuery u.query))))))

/-- One `&`-separated query piece, split at the first `=` (the key may be
empty; the value may itself contain `=`), as `form_urlencoded` does. -/
def parsePair (piece : List Char) : String × String :=
  let k := piece.takeWhile (fun c => c != '=')
  match piece.drop k.length with
  | '=' :: v => (String.mk k, String.mk v)
  | _ => (String.mk k, "")

/-- Modelled from the spec: query-string parsing (`Url::query_pairs` /
`form_urlencoded`): split on `&`, skip empty pieces, split each piece at
its first `=`. -/
def parseQuery (q : List Char) : List (String × String) :=
  ((splitOnChar '&' q).filter (fun piece => !piece.isEmpty)).map parsePair

/-- Characters that end the host section of an http(s) URL here. -/
def hostChar (c : Char) : Bool := !(c == '/' || c == '?')

/-- Modelled from the spec: `Url::parse` on http(s)-style URLs —
`scheme "://" host [ "/" path ] [ "?" query ]`, the path split on `/`
(an absent or empty path normalizes to the single empty segment, as the
`url` crate does for special schemes).  `none` models a `ParseError`
(e.g. an empty host). -/
def parseUrlChars (s : List Char) : Option Url :=
  let schemeChars := s.takeWhile (fun c => c != ':')
  let rest := s.drop schemeChars.length
  if startsList [':', '/', '/'] rest then
    let rest := rest.drop 3
    let hostChars := rest.takeWhile hostChar
    if hostChars.isEmpty then none
    else
      let rest := rest.drop hostChars.length
      match rest with
      | [] => some ⟨String.mk schemeChars, String.mk hostChars, [""], []⟩
      | '?' :: q => some ⟨String.mk schemeChars, String.mk hostChars, [""], parseQuery q⟩
      | '/' :: r =>
        let pathChars := r.takeWhile (fun c => c != '?')
        let segs := (splitOnChar '/' pathChars).map (fun l => String.mk l)
        match r.drop pathChars.length with
        | '?' :: q => some ⟨String.mk schemeChars, String.mk hostChars, segs, parseQuery q⟩
        | _ => some ⟨String.mk schemeChars, String.mk hostChars, segs, []⟩
      | _ => none
  else none

/-- `Url::parse` on `String`s. -/
def parseUrl (s : String) : Option Url := parseUrlChars s.toList

/-! ## The canonicalizer (`src/clean/`) -/

/-- `CleanUrlError` (src/clean/mod.rs lines 13-20); the `url::ParseError`
payload of `ParseError` is not modelled. -/
inductive CleanUrlError where
  | ParseError
  | PathSegmentsError
  | UnknownDomain
  | UnsupportedUrlScheme
  | UnsupportedUrlHost
  | UnsupportedUrlPath
deriving DecidableEq, Repr

/-- The observable outcome of a cleaning call: a value, a returned
`CleanUrlError`, or a Rust panic (`expect` / `unreachable!`) carrying the
panic message. -/
inductive CleanOutcome (α : Type) where
  | ok (a : α)
  | err (e : CleanUrlError)
  | panic (msg : String)
deriving DecidableEq, Repr

/-- Whether a cleaning outcome is a success. -/
def CleanOutcome.isOk {α : Type} : CleanOutcome α → Bool
  | .ok _ => true
  | _ => false

/-- Map over the success value of a `CleanOutcome`. -/
def CleanOutcome.map {α β : Type} (f : α → β) : CleanOutcome α → CleanOutcome β
  | .ok a => .ok (f a)
  | .err e => .err e
  | .panic m => .panic m

/-- Modelled from the spec: the external public-suffix classification
(`psl::domain_str` / `psl::domain`): the registrable domain of a host is
its last two dot-separated labels when there are at least two and none is
empty; otherwise the host is unclassifiable.  (Multi-level public
suffixes are outside the scope of the properties below.) -/
def domainStr (host : String) : Option String :=
  let labels := (splitOnChar '.' host.toList).map (fun l => String.mk l)
  if 2 ≤ labels.length ∧ labels.all (fun l => !l.isEmpty) then
    match labels.reverse with
    | tld :: sld :: _ => some (sld ++ "." ++ tld)
    | _ => none
  else none

/-- `PathSegmentsMut::pop_if_empty`: remove the last path segment if it is
empty, except when it is the only segment (the path `/`). -/
def popIfEmpty (segs : List String) : List String :=
  if 2 ≤ segs.length ∧ segs.getLast? = some "" then segs.dropLast else segs

/-- `PathSegmentsMut::pop`: remove the last path segment; popping the only
segment leaves the root path `/` (the single empty segment). -/
def popLast (segs : List String) : List String :=
  if segs.length ≤ 1 then [""] else segs.dropLast

/-- `matches!(segments.as_slice(), ["r", _, "comments", _, _])`. -/
def isRedditPost5 : List String → Bool
  | [a, _, c, _, _] => a == "r" && c == "comments"
  | _ => false

/-- `matches!(segments.as_slice(), ["r", _, "comments", _])`. -/
def isRedditPost4 : List String → Bool
  | [a, _, c, _] => a == "r" && c == "comments"
  | _ => false

/-- `matches!(segments.as_slice(), ["r", _, "comments", _, "comment", _])`. -/
def isRedditComment6 : List String → Bool
  | [a, _, c, _, e, _] => a == "r" && c == "comments" && e == "comment"
  | _ => false

/-- `RedditCleaner::clean` (src/clean/reddit.rs). -/
def RedditCleaner.clean (url : Url) : CleanOutcome Url :=
  match domainStr url.host with
  | none => .err .UnknownDomain
  | some domain =>
    if domain ≠ "reddit.com" then .err .UnsupportedUrlHost
    else
      let url1 : Url := { url with query := [] }
      let url2 : Url := { url1 with pathSegs := popIfEmpty url1.pathSegs }
      let segments := url2.pathSegs
      let is_post_with_short_name := isRedditPost5 segments
      let is_post := is_post_with_short_name || isRedditPost4 segments
      let is_comment := isRedditComment6 segments
      if !is_post && !is_comment then .err .UnsupportedUrlPath
      else if is_post_with_short_name then
        .ok { url2 with pathSegs := popLast url2.pathSegs }
      else .ok url2

/-- `matches!(segments.as_slice(), [_, "posts", _])`. -/
def isPagePost : List String → Bool
  | [_, b, _] => b == "posts"
  | _ => false

/-- `matches!(segments.as_slice(), ["groups", _, "permalink", _])`. -/
def isGroupPost : List String → Bool
  | [a, _, c, _] => a == "groups" && c == "permalink"
  | _ => false

/-- `matches!(segments.as_slice(), ["reel", _])`. -/
def isReel : List String → Bool
  | [a, _] => a == "reel"
  | _ => false

/-- `matches!(segments.as_slice(), ["permalink.php"])`. -/
def isPermalinkPhp : List String → Bool
  | [a] => a == "permalink.php"
  | _ => false

/-- `matches!(segments.as_slice(), ["photo.php"])`. -/
def isPhotoPhp : List String → Bool
  | [a] => a == "photo.php"
  | _ => false

/-- `HashMap::contains_key` on the captured query pairs. -/
def hasKey (ps : List (String × String)) (k : String) : Bool :=
  ps.any (fun p => p.1 == k)

/-- `HashMap::get` on the captured query pairs: `collect` lets a later
duplicate key overwrite an earlier one, so lookup returns the value of the
last pair with the given key. -/
def lastLookup (ps : List (String × String)) (k : String) : Option String :=
  ((ps.filter (fun p => p.1 == k)).getLast?).map (fun p => p.2)

/-- `FacebookCleaner::clean` (src/clean/facebook.rs): capture the query
pairs, strip the query and a trailing empty segment, classify the path
shape, and re-attach the identity-bearing parameters; `expect` /
`unreachable!` become `panic` outcomes with the source's messages. -/
def FacebookCleaner.clean (url : Url) : CleanOutcome Url :=
  let params := url.query
  let url1 : Url := { url with query := [] }
  let url2 : Url := { url1 with pathSegs := popIfEmpty url1.pathSegs }
  let segments := url2.pathSegs
  let is_page_post := isPagePost segments
  let is_group_post := isGroupPost segments
  let is_reel := isReel segments
  if is_page_post || is_reel || (is_group_post && !(hasKey params "comment_id")) then
    .ok url2
  else if isPermalinkPhp segments then
    match lastLookup params "story_fbid" with
    | some story_fbid =>
      match lastLookup params "id" with
      | some idv => .ok { url2 with query := [("story_fbid", story_fbid), ("id", idv)] }
      | none => .panic "must have id"
    | none => .panic "internal error: entered unreachable code"
  else if isPhotoPhp segments then
    match lastLookup params "fbid" with
    | some fbid => .ok { url2 with query := [("fbid", fbid)] }
    | none => .panic "must have fbid"
  else if is_group_post && hasKey params "comment_id" then
    match lastLookup params "comment_id" with
    | some comment_id => .ok { url2 with query := [("comment_id", comment_id)] }
    | none => .panic "100% Rust bug"
  else .panic "if we got here then there was a case for Facebook that wasn't handled"

/-- `GenericCleaner::clean` (src/clean/generic.rs): strip all query
parameters and a trailing empty segment, with no shape validation.  (Note:
this cleaner is never registered in the dispatcher of src/clean/mod.rs.) -/
def GenericCleaner.clean (url : Url) : CleanOutcome Url :=
  let url1 : Url := { url with query := [] }
  .ok { url1 with pathSegs := popIfEmpty url1.pathSegs }

/-- The dispatcher body of `clean_url` (src/clean/mod.rs lines 44-67) on an
already-parsed URL, before final serialization: validate the scheme,
classify the registrable domain, and apply the registered cleaner
(`"reddit.com"` and `"facebook.com"` only). -/
def clean_core (url : Url) : CleanOutcome Url :=
  if ¬(url.scheme = "https" ∨ url.scheme = "http") then .err .UnsupportedUrlScheme
  else
    match domainStr url.host with
    | some domain =>
      if domain = "reddit.com" then RedditCleaner.clean url
      else if domain = "facebook.com" then FacebookCleaner.clean url
      else .err .UnsupportedUrlHost
    | none => .err .UnknownDomain

/-- `clean_url` on a parsed URL: apply the dispatcher and serialize. -/
def clean_url (url : Url) : CleanOutcome String :=
  (clean_core url).map Url.render

/-- `clean_url` (src/clean/mod.rs): parse, clean, serialize. -/
def clean_url_str (s : String) : CleanOutcome String :=
  match parseUrl s with
  | none => .err .ParseError
  | some u => clean_url u

/-- Well-formedness of a URL value: the fragment-free, percent-escape-free
URLs on which the character-level parser and serializer model the `url`
crate exactly (components need no escaping, so `render` round-trips). -/
structure UrlWf (u : Url) : Prop where
  host_ne : u.host ≠ ""
  host_ok : ∀ c ∈ u.host.toList, hostChar c = true
  segs_ne : u.pathSegs ≠ []
  segs_ok : ∀ s ∈ u.pathSegs, ∀ c ∈ s.toList, c ≠ '/' ∧ c ≠ '?'
  keys_ok : ∀ p ∈ u.query, ∀ c ∈ (p : String × String).1.toList, c ≠ '&' ∧ c ≠ '='
  vals_ok : ∀ p ∈ u.query, ∀ c ∈ (p : String × String).2.toList, c ≠ '&'

/-- `pat` occurs as a contiguous substring of `s`. -/
def occursIn (pat s : List Char) : Prop := ∃ a b, s = a ++ pat ++ b

/-! ## Helper lemmas on the character-list primitives -/

theorem startsList_self_append (pat rest : List Char) : startsList pat (pat ++ rest) = true := by
  induction pat with
  | nil => rfl
  | cons p ps ih => simp [startsList, ih]

theorem exists_of_startsList {pat l : List Char} (h : startsList pat l = true) :
    ∃ rest, l = pat ++ rest := by
  induction pat generalizing l with
  | nil => exact ⟨l, rfl⟩
  | cons p ps ih =>
    cases l with
    | nil => simp [startsList] at h
    | cons c cs =>
      simp only [startsList, Bool.and_eq_true, beq_iff_eq] at h
      obtain ⟨rest, hr⟩ := ih h.2
      exact ⟨rest, by simp [h.1, hr]⟩

theorem strFind_isSome_of_startsList {pat hay : List Char} (h : startsList pat hay = true) :
    (strFind pat hay).isSome = true := by
  cases hay with
  | nil => simp [strFind, h]
  | cons c t => simp [strFind, h]

theorem strFind_isSome_of_occursIn {pat s : List Char} (h : occursIn pat s) :
    (strFind pat s).isSome = true := by
  obtain ⟨a, b, rfl⟩ := h
  induction a with
  | nil => exact strFind_isSome_of_startsList (by simpa using startsList_self_append pat b)
  | cons c a ih =>
    show (if startsList pat (c :: (a ++ pat ++ b)) then some 0
      else (strFind pat (a ++ pat ++ b)).map (· + 1)).isSome = true
    simp only [List.append_assoc] at ih ⊢
    by_cases hc : startsList pat (c :: (a ++ (pat ++ b))) = true
    · simp [hc]
    · simp [hc, ih]

theorem occursIn_lowerStr {pat s : List Char} (h : occursIn pat s) :
    occursIn (lowerStr pat) (lowerStr s) := by
  obtain ⟨a, b, rfl⟩ := h
  exact ⟨lowerStr a, lowerStr b, by simp [lowerStr]⟩

theorem trim_decomp (u : List Char) :
    u = (u.reverse.dropWhile Char.isWhitespace).reverse ++
      (u.reverse.takeWhile Char.isWhitespace).reverse := by
  conv_lhs => rw [← u.reverse_reverse,
    ← List.takeWhile_append_dropWhile Char.isWhitespace u.reverse]
  rw [List.reverse_append]

theorem trimChars_middle (s : List Char) : ∃ a b, s = a ++ trimChars s ++ b := by
  refine ⟨s.takeWhile Char.isWhitespace,
    ((s.dropWhile Char.isWhitespace).reverse.takeWhile Char.isWhitespace).reverse, ?_⟩
  unfold trimChars
  conv_lhs => rw [← List.takeWhile_append_dropWhile Char.isWhitespace s]
  rw [List.append_assoc]
  congr 1
  exact trim_decomp (s.dropWhile Char.isWhitespace)

theorem lowerStr_urlEq : lowerStr ['u', 'r', 'l', '='] = ['u', 'r', 'l', '='] := by decide

/-- Whenever the semicolon fallback of `urlFromContent` would fire, the
case-insensitive search for `url=` has already succeeded, so the two
variants agree on every content value. -/
theorem urlFromContent_eq (cv : List Char) :
    urlFromContent cv = urlFromContentNoFallback cv := by
  unfold urlFromContent urlFromContentNoFallback
  cases hfind : strFind ['u', 'r', 'l', '='] (lowerStr cv) with
  | some i => rfl
  | none =>
    cases hsemi : strFind [';'] cv with
    | none => rfl
    | some semi =>
      simp only []
      rw [if_neg]
      intro hstart
      obtain ⟨rest, hrest⟩ := exists_of_startsList hstart
      obtain ⟨a, b, hab⟩ := trimChars_middle (cv.drop (semi + 1))
      have hocc : occursIn ['u', 'r', 'l', '='] cv := by
        refine ⟨cv.take (semi + 1) ++ a, rest ++ b, ?_⟩
        conv_lhs => rw [← List.take_append_drop (semi + 1) cv]
        rw [hab, hrest]
        simp [List.append_assoc]
      have hsome := strFind_isSome_of_occursIn (occursIn_lowerStr hocc)
      rw [lowerStr_urlEq, hfind] at hsome
      simp at hsome

/-- Claim C10: the semicolon fallback branch of `extract_meta_refresh`
(which case-sensitively strips a `url=` prefix from the part of the content
value after the first semicolon) never produces a result: whenever the
post-semicolon part begins with `url=`, the content value contains `url=`,
so the earlier case-insensitive search already returned; hence
`extract_meta_refresh` is extensionally equal to the same function with
the fallback branch removed. -/
theorem meta_refresh_fallback_dead :
    ∀ html : List Char, extract_meta_refresh html = extract_meta_refresh_no_fallback html := by
  intro html
  unfold extract_meta_refresh extract_meta_refresh_no_fallback tagExtract
  cases firstMetaTag html with
  | none => rfl
  | some t =>
    simp only [Option.some_bind]
    cases contentValue t with
    | none => rfl
    | some cv =>
      simp only [Option.some_bind]
      exact urlFromContent_eq cv

/-- Claim C5: `extract_meta_refresh` examines only the first
case-insensitively located meta tag (structurally: it factors through
`firstMetaTag`, and a document whose first meta tag is not a refresh tag
yields none even when a later tag is); on that tag the content value is
extracted honouring double-quote, single-quote, or unquoted delimiting and
the trimmed tail after a case-insensitive `url=` is returned; quoting
style and letter case do not affect the result; no tag, no matching
attributes, or no extractable URL (e.g. `content="5"`, or an empty
document) yield none. -/
theorem extract_meta_refresh_behaviour :
    (∀ html : List Char,
      extract_meta_refresh html =
        (firstMetaTag html).bind (fun t => (contentValue t).bind urlFromContent)) ∧
    extract_meta_refresh_str "<meta http-equiv=\"refresh\" content=\"0;url=https://example.com\">" =
      some "https://example.com" ∧
    extract_meta_refresh_str "<meta http-equiv='refresh' content='0;url=https://example.com'>" =
      some "https://example.com" ∧
    extract_meta_refresh_str "<meta http-equiv=refresh content=0;url=https://example.com>" =
      some "https://example.com" ∧
    extract_meta_refresh_str "<META HTTP-EQUIV=\"REFRESH\" CONTENT=\"0;URL=https://example.com\">" =
      some "https://example.com" ∧
    extract_meta_refresh_str "<Meta Http-Equiv=\"Refresh\" Content=\"0;Url=https://example.com\">" =
      some "https://example.com" ∧
    extract_meta_refresh_str "<meta http-equiv=\"refresh\" content=\"0;url=  https://example.com  \">" =
      some "https://example.com" ∧
    extract_meta_refresh_str
        "<meta charset=\"utf-8\"><meta http-equiv=\"refresh\" content=\"0;url=https://example.com\">" =
      none ∧
    extract_meta_refresh_str "<meta http-equiv=\"refresh\" content=\"5\">" = none ∧
    extract_meta_refresh_str "<meta charset=\"utf-8\">" = none ∧
    extract_meta_refresh_str "" = none := by
  refine ⟨fun html => rfl, ?_, ?_, ?_, ?_, ?_, ?_, ?_, ?_, ?_, ?_⟩ <;> decide

/-- Claim C2: the retry predicate compares the error's rendered message
with the literal string "retryable"; no error in the system renders to
that string, so the retry wrapper never retries and `resolve` is
extensionally a single invocation of `resolve_helper` at depth 0. -/
theorem resolve_never_retries :
    (∀ e : ResolveError, e.render ≠ "retryable") ∧
    ∀ (fetch : String → Except ResolveError (String × String))
      (join : String → String → Except UrlParseError String) (url : String),
      resolve fetch join url = resolve_helper fetch join url 0 := by
  have hr : ∀ e : ResolveError, e.render ≠ "retryable" := by
    intro e
    cases e with
    | tooManyMetaRefresh => decide
    | transport d =>
      intro h
      simp only [ResolveError.render] at h
      have hc := congrArg String.data h
      rw [String.data_append] at hc
      rw [show "error ".data = ['e', 'r', 'r', 'o', 'r', ' '] from rfl] at hc
      rw [show "retryable".data = ['r', 'e', 't', 'r', 'y', 'a', 'b', 'l', 'e'] from rfl] at hc
      simp at hc
    | urlParse pe => cases pe <;> decide
  refine ⟨hr, fun fetch join url => ?_⟩
  unfold resolve
  cases h : resolve_helper fetch join url 0 with
  | ok v => simp [retryWhen, h]
  | error e =>
    have hb : (e.render == "retryable") = false := by
      simp only [beq_eq_false_iff_ne, ne_eq]
      exact hr e
    simp [retryWhen, h, hb]

/-- Claim C3: `resolve_helper` follows at most 5 meta-refresh hops beyond
the initial request: whenever `depth > 5` it returns the distinct error
"Too many meta refresh redirects" without issuing a request; the total
request count from depth 0 is at most 6; and against an oracle whose every
page carries a meta-refresh target, resolution from depth 0 terminates in
exactly that error rather than recursing unboundedly. -/
theorem resolve_depth_capped
    (fetch : String → Except ResolveError (String × String))
    (join : String → String → Except UrlParseError String) :
    (∀ url depth, 5 < depth →
      resolve_helper fetch join url depth = .error .tooManyMetaRefresh ∧
      request_count fetch join url depth = 0) ∧
    (∀ url depth, request_count fetch join url depth ≤ 6 - depth) ∧
    (∀ url,
      (∀ v, ∃ f h t, fetch v = .ok (f, h) ∧ extract_meta_refresh h.toList = some t ∧
        startsList ['h', 't', 't', 'p'] t = true) →
      resolve_helper fetch join url 0 = .error .tooManyMetaRefresh) := by
  refine ⟨?_, ?_, ?_⟩
  · intro url depth h
    constructor
    · rw [resolve_helper, if_pos h]
    · rw [request_count, if_pos h]
  · have main : ∀ n url depth, 6 - depth ≤ n →
        request_count fetch join url depth ≤ 6 - depth := by
      intro n
      induction n with
      | zero =>
        intro url depth h
        have h5 : 5 < depth := by omega
        rw [request_count, if_pos h5]
        omega
      | succ n ih =>
        intro url depth h
        by_cases h5 : 5 < depth
        · rw [request_count, if_pos h5]; omega
        · rw [request_count, if_neg h5]
          have hd : 6 - (depth + 1) ≤ n := by omega
          split
          · omega
          · split
            · omega
            · rename_i meta heq
              dsimp only []
              split
              · have := ih (String.mk meta) (depth + 1) hd
                omega
              · split
                · omega
                · rename_i joined hj
                  have := ih joined (depth + 1) hd
                  omega
    intro url depth
    exact main (6 - depth) url depth le_rfl
  · intro url hredir
    have main : ∀ n url depth, 6 - depth ≤ n →
        resolve_helper fetch join url depth = .error .tooManyMetaRefresh := by
      intro n
      induction n with
      | zero =>
        intro url depth h
        have h5 : 5 < depth := by omega
        rw [resolve_helper, if_pos h5]
      | succ n ih =>
        intro url depth h
        by_cases h5 : 5 < depth
        · rw [resolve_helper, if_pos h5]
        · rw [resolve_helper, if_neg h5]
          obtain ⟨f, b, t, hf, he, hs⟩ := hredir url
          rw [hf]
          simp only [he, hs, if_true]
          exact ih (String.mk t) (depth + 1) (by omega)
    exact main 6 url 0 (by omega)

/-- Witness for C3: a synthetic self-redirecting oracle makes resolution
from depth 0 fail with the too-many-redirects error. -/
theorem resolve_depth_capped_witness :
    resolve_helper
      (fun _ => .ok ("http://loop",
        "<meta http-equiv=\"refresh\" content=\"0;url=http://loop\">"))
      (fun _ m => .ok m) "http://loop" 0 = .error .tooManyMetaRefresh :=
  (resolve_depth_capped
      (fun _ => .ok ("http://loop",
        "<meta http-equiv=\"refresh\" content=\"0;url=http://loop\">"))
      (fun _ m => .ok m)).2.2 "http://loop"
    (fun _ => ⟨"http://loop",
      "<meta http-equiv=\"refresh\" content=\"0;url=http://loop\">",
      "http://loop".toList, rfl, by decide, by decide⟩)

/-! ## Lemmas about the captured-parameter map -/

theorem mem_of_getLast?_eq {α : Type} {l : List α} {a : α} (h : l.getLast? = some a) :
    a ∈ l := by
  cases l with
  | nil => simp at h
  | cons x xs =>
    rw [List.getLast?_eq_getLast (x :: xs) (by simp)] at h
    rw [← Option.some_inj.mp h]
    exact List.getLast_mem _

theorem hasKey_of_lastLookup {ps : List (String × String)} {k v : String}
    (h : lastLookup ps k = some v) : hasKey ps k = true := by
  unfold lastLookup at h
  cases hg : (ps.filter (fun p => p.1 == k)).getLast? with
  | none => rw [hg] at h; simp at h
  | some p =>
    have hmem := mem_of_getLast?_eq hg
    rw [List.mem_filter] at hmem
    unfold hasKey
    rw [List.any_eq_true]
    exact ⟨p, hmem.1, hmem.2⟩

/-- Claim C1 (amended): a supported scheme with a registrable domain other
than reddit.com or facebook.com yields Unsupported-Host; on reddit.com an
unmatched path shape yields Unsupported-Path; but on facebook.com an
unmatched path shape causes a panic (the final `unreachable!`), not
Unsupported-Path. -/
theorem clean_url_rejection_behaviour :
    (∀ (u : Url) (d : String), (u.scheme = "https" ∨ u.scheme = "http") →
      domainStr u.host = some d → d ≠ "reddit.com" → d ≠ "facebook.com" →
      clean_url u = .err .UnsupportedUrlHost) ∧
    (∀ u : Url, (u.scheme = "https" ∨ u.scheme = "http") →
      domainStr u.host = some "reddit.com" →
      isRedditPost5 (popIfEmpty u.pathSegs) = false →
      isRedditPost4 (popIfEmpty u.pathSegs) = false →
      isRedditComment6 (popIfEmpty u.pathSegs) = false →
      clean_url u = .err .UnsupportedUrlPath) ∧
    (∀ u : Url, (u.scheme = "https" ∨ u.scheme = "http") →
      domainStr u.host = some "facebook.com" →
      isPagePost (popIfEmpty u.pathSegs) = false →
      isReel (popIfEmpty u.pathSegs) = false →
      isGroupPost (popIfEmpty u.pathSegs) = false →
      isPermalinkPhp (popIfEmpty u.pathSegs) = false →
      isPhotoPhp (popIfEmpty u.pathSegs) = false →
      clean_url u =
        .panic "if we got here then there was a case for Facebook that wasn't handled") := by
  refine ⟨?_, ?_, ?_⟩
  · intro u d hsch hdom hd1 hd2
    simp [clean_url, clean_core, hsch, hdom, hd1, hd2, CleanOutcome.map]
  · intro u hsch hdom h5 h4 h6
    simp [clean_url, clean_core, RedditCleaner.clean, hsch, hdom, h5, h4, h6, CleanOutcome.map]
  · intro u hsch hdom hpp hre hgp hpl hph
    simp [clean_url, clean_core, FacebookCleaner.clean, hsch, hdom, hpp, hre, hgp, hpl, hph,
      CleanOutcome.map]

/-- Counterexample for C1 as stated: the facebook.com URL
`https://www.facebook.com/foo` has a path shape matching none of the
accepted forms, yet `clean_url` panics instead of returning the
Unsupported-Path error. -/
theorem clean_url_rejection_behaviour_cex :
    clean_url_str "https://www.facebook.com/foo" =
      .panic "if we got here then there was a case for Facebook that wasn't handled" ∧
    clean_url_str "https://www.facebook.com/foo" ≠ .err .UnsupportedUrlPath ∧
    (clean_url_str "https://www.facebook.com/foo").isOk = false := by
  refine ⟨by decide, by decide, by decide⟩

/-- Witness for C1: each branch instantiated at a concrete URL. -/
theorem clean_url_rejection_behaviour_witness :
    clean_url ⟨"https", "www.example.com", ["a"], []⟩ = .err .UnsupportedUrlHost ∧
    clean_url ⟨"https", "www.reddit.com", ["u", "spez"], []⟩ = .err .UnsupportedUrlPath ∧
    clean_url ⟨"https", "www.facebook.com", ["foo"], []⟩ =
      .panic "if we got here then there was a case for Facebook that wasn't handled" :=
  ⟨clean_url_rejection_behaviour.1 ⟨"https", "www.example.com", ["a"], []⟩ "example.com"
      (Or.inl rfl) (by decide) (by decide) (by decide),
    clean_url_rejection_behaviour.2.1 ⟨"https", "www.reddit.com", ["u", "spez"], []⟩
      (Or.inl rfl) (by decide) (by decide) (by decide) (by decide),
    clean_url_rejection_behaviour.2.2 ⟨"https", "www.facebook.com", ["foo"], []⟩
      (Or.inl rfl) (by decide) (by decide) (by decide) (by decide) (by decide) (by decide)⟩

/-- Claim C4: on facebook.com, a `permalink.php` URL with `story_fbid`
(and `id`) among the captured query parameters cleans to exactly the two
parameters `story_fbid` and `id` with their captured values, dropping all
others whatever their number or order; a `photo.php` URL re-attaches
exactly `fbid`; and a `groups/<g>/permalink/<post>` URL with a
`comment_id` parameter re-attaches exactly `comment_id`. -/
theorem facebook_query_reattach :
    (∀ (u : Url) (sv iv : String), (u.scheme = "https" ∨ u.scheme = "http") →
      domainStr u.host = some "facebook.com" →
      popIfEmpty u.pathSegs = ["permalink.php"] →
      lastLookup u.query "story_fbid" = some sv →
      lastLookup u.query "id" = some iv →
      clean_core u = .ok ⟨u.scheme, u.host, ["permalink.php"],
        [("story_fbid", sv), ("id", iv)]⟩) ∧
    (∀ (u : Url) (fv : String), (u.scheme = "https" ∨ u.scheme = "http") →
      domainStr u.host = some "facebook.com" →
      popIfEmpty u.pathSegs = ["photo.php"] →
      lastLookup u.query "fbid" = some fv →
      clean_core u = .ok ⟨u.scheme, u.host, ["photo.php"], [("fbid", fv)]⟩) ∧
    (∀ (u : Url) (g pid cv : String), (u.scheme = "https" ∨ u.scheme = "http") →
      domainStr u.host = some "facebook.com" →
      popIfEmpty u.pathSegs = ["groups", g, "permalink", pid] →
      lastLookup u.query "comment_id" = some cv →
      clean_core u = .ok ⟨u.scheme, u.host, ["groups", g, "permalink", pid],
        [("comment_id", cv)]⟩) := by
  refine ⟨?_, ?_, ?_⟩
  · intro u sv iv hsch hdom hpath hsf hid
    simp [clean_core, FacebookCleaner.clean, hsch, hdom, hpath, hsf, hid,
      isPagePost, isReel, isGroupPost, isPermalinkPhp, isPhotoPhp]
  · intro u fv hsch hdom hpath hfb
    simp [clean_core, FacebookCleaner.clean, hsch, hdom, hpath, hfb,
      isPagePost, isReel, isGroupPost, isPermalinkPhp, isPhotoPhp]
  · intro u g pid cv hsch hdom hpath hcv
    simp [clean_core, FacebookCleaner.clean, hsch, hdom, hpath, hcv,
      hasKey_of_lastLookup hcv,
      isPagePost, isReel, isGroupPost, isPermalinkPhp, isPhotoPhp]

/-- Witness for C4: the three shapes at concrete URLs (with extra tracking
parameters mixed in, and for the group case a trailing empty segment). -/
theorem facebook_query_reattach_witness :
    clean_core ⟨"https", "www.facebook.com", ["permalink.php"],
        [("rdid", "X"), ("story_fbid", "S"), ("id", "I")]⟩ =
      .ok ⟨"https", "www.facebook.com", ["permalink.php"],
        [("story_fbid", "S"), ("id", "I")]⟩ ∧
    clean_core ⟨"https", "www.facebook.com", ["photo.php"],
        [("fbid", "F"), ("set", "a.3"), ("type", "3")]⟩ =
      .ok ⟨"https", "www.facebook.com", ["photo.php"], [("fbid", "F")]⟩ ∧
    clean_core ⟨"https", "www.facebook.com", ["groups", "vicdeals", "permalink", "25", ""],
        [("comment_id", "C"), ("rdid", "X")]⟩ =
      .ok ⟨"https", "www.facebook.com", ["groups", "vicdeals", "permalink", "25"],
        [("comment_id", "C")]⟩ :=
  ⟨facebook_query_reattach.1 _ "S" "I" (Or.inl rfl) (by decide) (by decide)
      (by decide) (by decide),
    facebook_query_reattach.2.1 _ "F" (Or.inl rfl) (by decide) (by decide) (by decide),
    facebook_query_reattach.2.2 _ "vicdeals" "25" "C" (Or.inl rfl) (by decide)
      (by decide) (by decide)⟩

/-- Claim C8 (amended): instagram.com URLs are not handled by the Generic
rule — the dispatcher registers only reddit.com and facebook.com, so every
http/https instagram.com URL is rejected with Unsupported-Host.  The
Generic cleaner exists in the source (unregistered) and would
unconditionally drop the query and one trailing empty segment. -/
theorem instagram_not_cleaned :
    (∀ u : Url, (u.scheme = "https" ∨ u.scheme = "http") →
      domainStr u.host = some "instagram.com" →
      clean_url u = .err .UnsupportedUrlHost) ∧
    (∀ u : Url, GenericCleaner.clean u =
      .ok { u with query := [], pathSegs := popIfEmpty u.pathSegs }) := by
  constructor
  · intro u hsch hdom
    simp [clean_url, clean_core, hsch, hdom, CleanOutcome.map]
  · intro u
    rfl

/-- Counterexample for C8 as stated: cleaning an instagram.com URL does
not succeed; it returns Unsupported-Host. -/
theorem instagram_not_cleaned_cex :
    clean_url_str "https://www.instagram.com/p/DS8F57NjS_S/?igsh=MWxidXNpbWV6djIxcQ" =
      .err .UnsupportedUrlHost ∧
    (clean_url_str "https://www.instagram.com/p/DS8F57NjS_S/?igsh=MWxidXNpbWV6djIxcQ").isOk =
      false := by
  refine ⟨by decide, by decide⟩

/-- Witness for C8 (amended): a concrete instagram.com URL is rejected. -/
theorem instagram_not_cleaned_witness :
    clean_url ⟨"https", "www.instagram.com", ["p", "DS8F57NjS_S"], [("igsh", "abc")]⟩ =
      .err .UnsupportedUrlHost :=
  instagram_not_cleaned.1 ⟨"https", "www.instagram.com", ["p", "DS8F57NjS_S"], [("igsh", "abc")]⟩
    (Or.inl rfl) (by decide)

/-- Claim C9: `clean_url` is not total on facebook.com inputs — each of
the four panic families is realized: `permalink.php` with `story_fbid` but
no `id` (expect), `permalink.php` without `story_fbid` (`unreachable!`),
`photo.php` without `fbid` (expect), and an unrecognized facebook path
shape (the final `unreachable!`). -/
theorem facebook_clean_panics :
    clean_url_str "https://www.facebook.com/permalink.php?story_fbid=A" =
      .panic "must have id" ∧
    clean_url_str "https://www.facebook.com/permalink.php?x=1" =
      .panic "internal error: entered unreachable code" ∧
    clean_url_str "https://www.facebook.com/photo.php?x=1" = .panic "must have fbid" ∧
    clean_url_str "https://www.facebook.com/foo" =
      .panic "if we got here then there was a case for Facebook that wasn't handled" ∧
    (clean_url_str "https://www.facebook.com/permalink.php?story_fbid=A").isOk = false := by
  refine ⟨by decide, by decide, by decide, by decide, by decide⟩

/-- Claim C6 (amended): cleaning a reddit.com post URL drops all query
parameters, a trailing empty segment, and the optional human-readable slug
segment, so for every subreddit and NONEMPTY post ID the slugged and
unslugged post shapes clean to the same byte-identical string (with an
empty post ID the two shapes diverge — see the counterexample); the
spec's end-to-end example holds. -/
theorem reddit_slug_invariance :
    (∀ (scheme host sub pid slug : String) (q1 q2 : List (String × String)),
      (scheme = "https" ∨ scheme = "http") →
      domainStr host = some "reddit.com" →
      pid ≠ "" →
      clean_url ⟨scheme, host, ["r", sub, "comments", pid, slug], q1⟩ =
        clean_url ⟨scheme, host, ["r", sub, "comments", pid], q2⟩) ∧
    clean_url_str
        "https://www.reddit.com/r/AskTheWorld/comments/1q2rw7m/some_slug/?utm_source=share" =
      .ok "https://www.reddit.com/r/AskTheWorld/comments/1q2rw7m" := by
  constructor
  · intro scheme host sub pid slug q1 q2 hsch hdom hpid
    by_cases hslug : slug = ""
    · subst hslug
      simp [clean_url, clean_core, RedditCleaner.clean, hsch, hdom, hpid,
        popIfEmpty, popLast, isRedditPost5, isRedditPost4, isRedditComment6,
        CleanOutcome.map]
    · simp [clean_url, clean_core, RedditCleaner.clean, hsch, hdom, hpid, hslug,
        popIfEmpty, popLast, isRedditPost5, isRedditPost4, isRedditComment6,
        CleanOutcome.map]
  · decide


/-- Counterexample for C6 as stated (quantified over every post ID): with
post ID `""` and slug `"a"` the slugged shape cleans to a trailing-slash
URL while the unslugged shape is rejected. -/
theorem reddit_slug_invariance_cex :
    clean_url ⟨"https", "www.reddit.com", ["r", "x", "comments", "", "a"], []⟩ =
      .ok "https://www.reddit.com/r/x/comments/" ∧
    clean_url ⟨"https", "www.reddit.com", ["r", "x", "comments", ""], []⟩ =
      .err .UnsupportedUrlPath ∧
    clean_url ⟨"https", "www.reddit.com", ["r", "x", "comments", "", "a"], []⟩ ≠
      clean_url ⟨"https", "www.reddit.com", ["r", "x", "comments", ""], []⟩ := by
  refine ⟨by decide, by decide, by decide⟩


/-- Witness for C6 (amended): the slugged and unslugged forms of a
concrete post agree. -/
theorem reddit_slug_invariance_witness :
    clean_url ⟨"https", "www.reddit.com", ["r", "AskTheWorld", "comments", "1q2rw7m", "slug"],
        [("utm_source", "share")]⟩ =
      clean_url ⟨"https", "www.reddit.com", ["r", "AskTheWorld", "comments", "1q2rw7m"], []⟩ :=
  reddit_slug_invariance.1 "https" "www.reddit.com" "AskTheWorld" "1q2rw7m" "slug"
    [("utm_source", "share")] [] (Or.inl rfl) (by decide) (by decide)

/-! ## Round-trip of `Url.render` through the parser (for idempotence) -/

theorem takeWhile_append_of_all {p : Char → Bool} {a : List Char} (b : List Char)
    (h : ∀ x ∈ a, p x = true) : (a ++ b).takeWhile p = a ++ b.takeWhile p := by
  induction a with
  | nil => rfl
  | cons x xs ih =>
    rw [List.cons_append, List.takeWhile_cons_of_pos (h x (by simp))]
    rw [ih (fun y hy => h y (by simp [hy]))]
    rfl

theorem takeWhile_all {p : Char → Bool} {a : List Char} (h : ∀ x ∈ a, p x = true) :
    a.takeWhile p = a := by
  have := takeWhile_append_of_all (p := p) [] h
  simpa using this

theorem splitOnChar_sep_free {sep : Char} {x : List Char} (h : ∀ c ∈ x, c ≠ sep) :
    splitOnChar sep x = [x] := by
  induction x with
  | nil => rfl
  | cons c t ih =>
    rw [splitOnChar]
    rw [if_neg (by simpa using (h c (by simp)))]
    rw [ih (fun y hy => h y (by simp [hy]))]

theorem splitOnChar_append {sep : Char} {x : List Char} (r : List Char)
    (h : ∀ c ∈ x, c ≠ sep) :
    splitOnChar sep (x ++ sep :: r) = x :: splitOnChar sep r := by
  induction x with
  | nil =>
    rw [List.nil_append, splitOnChar, if_pos (by simp)]
  | cons c t ih =>
    rw [List.cons_append, splitOnChar]
    rw [if_neg (by simpa using (h c (by simp)))]
    rw [ih (fun y hy => h y (by simp [hy]))]

theorem splitOnChar_joinSep {sep : Char} {xs : List (List Char)} (hne : xs ≠ [])
    (h : ∀ x ∈ xs, ∀ c ∈ x, c ≠ sep) :
    splitOnChar sep (joinSep sep xs) = xs := by
  induction xs with
  | nil => exact absurd rfl hne
  | cons x t ih =>
    cases t with
    | nil =>
      rw [joinSep]
      exact splitOnChar_sep_free (h x (by simp))
    | cons y r =>
      rw [joinSep]
      rw [splitOnChar_append _ (h x (by simp))]
      rw [ih (by simp) (fun z hz => h z (by simp [hz]))]

theorem mem_joinSep {sep : Char} {xs : List (List Char)} {c : Char}
    (h : c ∈ joinSep sep xs) : c = sep ∨ ∃ x ∈ xs, c ∈ x := by
  induction xs with
  | nil => simp [joinSep] at h
  | cons x t ih =>
    cases t with
    | nil =>
      rw [joinSep] at h
      exact Or.inr ⟨x, by simp, h⟩
    | cons y r =>
      rw [joinSep] at h
      rw [List.mem_append] at h
      rcases h with h | h
      · exact Or.inr ⟨x, by simp, h⟩
      · rw [List.mem_cons] at h
        rcases h with h | h
        · exact Or.inl h
        · rcases ih h with h | ⟨z, hz, hc⟩
          · exact Or.inl h
          · exact Or.inr ⟨z, by simp [hz], hc⟩

theorem mk_toList (s : String) : String.mk s.toList = s := rfl

theorem toList_ne_nil {s : String} (h : s ≠ "") : s.toList ≠ [] := by
  intro hl
  exact h (by rw [String.ext_iff]; exact hl)

theorem parsePair_render {k v : String} (hk : ∀ c ∈ k.toList, c ≠ '=') :
    parsePair (k.toList ++ '=' :: v.toList) = (k, v) := by
  unfold parsePair
  have ht : (k.toList ++ '=' :: v.toList).takeWhile (fun c => c != '=') = k.toList := by
    rw [takeWhile_append_of_all _ (fun x hx => by simpa using hk x hx)]
    rw [List.takeWhile_cons_of_neg (by simp)]
    exact List.append_nil _
  simp only [ht, List.drop_left]
  simp [mk_toList]

theorem parseQuery_render {ps : List (String × String)} (hne : ps ≠ [])
    (hk : ∀ p ∈ ps, ∀ c ∈ (p : String × String).1.toList, c ≠ '&' ∧ c ≠ '=')
    (hv : ∀ p ∈ ps, ∀ c ∈ (p : String × String).2.toList, c ≠ '&') :
    parseQuery (renderQuery ps) = ps := by
  unfold parseQuery renderQuery
  rw [splitOnChar_joinSep (by simpa using hne)]
  · rw [List.filter_eq_self.mpr]
    · rw [List.map_map]
      have : ∀ p ∈ ps, (parsePair ∘ fun p : String × String =>
          p.1.toList ++ '=' :: p.2.toList) p = id p := by
        intro p hp
        simp only [Function.comp_apply, id_eq]
        exact parsePair_render (fun c hc => (hk p hp c hc).2)
      rw [List.map_congr_left this, List.map_id]
    · intro piece hpiece
      rw [List.mem_map] at hpiece
      obtain ⟨p, hp, rfl⟩ := hpiece
      cases hkl : p.1.toList with
      | nil => simp
      | cons c t => simp
  · intro x hx c hc
    rw [List.mem_map] at hx
    obtain ⟨p, hp, rfl⟩ := hx
    rw [List.mem_append] at hc
    rcases hc with hc | hc
    · exact (hk p hp c hc).1
    · rw [List.mem_cons] at hc
      rcases hc with rfl | hc
      · decide
      · exact hv p hp c hc

theorem parseUrlChars_build (sch host : String) (segs : List String)
    (query : List (String × String))
    (hscl : ∀ c ∈ sch.toList, (c != ':') = true)
    (hne : host ≠ "") (hok : ∀ c ∈ host.toList, hostChar c = true)
    (hsne : segs ≠ [])
    (hsok : ∀ s ∈ segs, ∀ c ∈ String.toList s, c ≠ '/' ∧ c ≠ '?')
    (hkok : ∀ p ∈ query, ∀ c ∈ (p : String × String).1.toList, c ≠ '&' ∧ c ≠ '=')
    (hvok : ∀ p ∈ query, ∀ c ∈ (p : String × String).2.toList, c ≠ '&') :
    parseUrlChars (sch.toList ++ (':' :: '/' :: '/' :: (host.toList ++
      ('/' :: (joinSep '/' (segs.map String.toList) ++
        (if query = [] then [] else '?' :: renderQuery query)))))) =
      some ⟨sch, host, segs, query⟩ := by
  set J := joinSep '/' (segs.map String.toList) with hJdef
  set Q : List Char := if query = [] then [] else '?' :: renderQuery query with hQdef
  have hJok : ∀ c ∈ J, (c != '?') = true := by
    intro c hc
    rcases mem_joinSep hc with rfl | ⟨x, hx, hcx⟩
    · decide
    · rw [List.mem_map] at hx
      obtain ⟨s, hs, rfl⟩ := hx
      simpa using (hsok s hs c hcx).2
  have hsplit : (splitOnChar '/' J).map (fun l => String.mk l) = segs := by
    rw [hJdef, splitOnChar_joinSep (by simpa using hsne)]
    · rw [List.map_map]
      have : ∀ s ∈ segs, ((fun l => String.mk l) ∘ String.toList) s = id s := by
        intro s hs
        simp [mk_toList]
      rw [List.map_congr_left this, List.map_id]
    · intro x hx c hc
      rw [List.mem_map] at hx
      obtain ⟨s, hs, rfl⟩ := hx
      exact (hsok s hs c hc).1
  unfold parseUrlChars
  dsimp only []
  have hA : (sch.toList ++ (':' :: '/' :: '/' :: (host.toList ++ ('/' :: (J ++ Q))))).takeWhile
      (fun c => c != ':') = sch.toList := by
    rw [takeWhile_append_of_all _ hscl, List.takeWhile_cons_of_neg (by simp), List.append_nil]
  rw [hA, List.drop_left]
  rw [show startsList [':', '/', '/']
      (':' :: '/' :: '/' :: (host.toList ++ ('/' :: (J ++ Q)))) = true from by
    simp [startsList]]
  rw [if_pos rfl]
  have h3 : (':' :: '/' :: '/' :: (host.toList ++ ('/' :: (J ++ Q)))).drop 3 =
      host.toList ++ ('/' :: (J ++ Q)) := by
    simp [List.drop]
  rw [h3]
  have hH : (host.toList ++ ('/' :: (J ++ Q))).takeWhile hostChar = host.toList := by
    rw [takeWhile_append_of_all _ hok,
      List.takeWhile_cons_of_neg (by decide), List.append_nil]
  rw [hH]
  rw [if_neg (by simpa using toList_ne_nil hne)]
  rw [List.drop_left]
  by_cases hq : query = []
  · have hQ : Q = [] := by rw [hQdef, if_pos hq]
    rw [hQ, List.append_nil]
    have hP : J.takeWhile (fun c => c != '?') = J := takeWhile_all hJok
    simp only [hP, hsplit, List.drop_length, mk_toList, hq]
  · have hQ : Q = '?' :: renderQuery query := by rw [hQdef, if_neg hq]
    rw [hQ]
    have hP : (J ++ '?' :: renderQuery query).takeWhile (fun c => c != '?') = J := by
      rw [takeWhile_append_of_all _ hJok, List.takeWhile_cons_of_neg (by simp), List.append_nil]
    simp only [hP, hsplit, List.drop_left, mk_toList]
    rw [parseQuery_render hq hkok hvok]

theorem parse_render {u : Url} (hwf : UrlWf u)
    (hsch : u.scheme = "http" ∨ u.scheme = "https") :
    parseUrl u.render = some u := by
  obtain ⟨sch, host, segs, query⟩ := u
  have hscl : ∀ c ∈ sch.toList, (c != ':') = true := by
    rcases hsch with h | h
    · rw [show sch = "http" from h]; decide
    · rw [show sch = "https" from h]; decide
  exact parseUrlChars_build sch host segs query hscl hwf.host_ne hwf.host_ok
    hwf.segs_ne hwf.segs_ok hwf.keys_ok hwf.vals_ok

/-! ## Shape inversions and canonical-form facts -/

theorem isRedditPost5_inv {t : List String} (h : isRedditPost5 t = true) :
    ∃ b d e, t = ["r", b, "comments", d, e] := by
  rcases t with _ | ⟨a, _ | ⟨b, _ | ⟨c, _ | ⟨d, _ | ⟨e, _ | ⟨f, r⟩⟩⟩⟩⟩⟩ <;>
    simp [isRedditPost5] at h
  obtain ⟨h1, h2⟩ := h
  exact ⟨b, d, e, by rw [h1, h2]⟩

theorem isRedditPost4_inv {t : List String} (h : isRedditPost4 t = true) :
    ∃ b d, t = ["r", b, "comments", d] := by
  rcases t with _ | ⟨a, _ | ⟨b, _ | ⟨c, _ | ⟨d, _ | ⟨e, r⟩⟩⟩⟩⟩ <;>
    simp [isRedditPost4] at h
  obtain ⟨h1, h2⟩ := h
  exact ⟨b, d, by rw [h1, h2]⟩

theorem isRedditComment6_inv {t : List String} (h : isRedditComment6 t = true) :
    ∃ b d f, t = ["r", b, "comments", d, "comment", f] := by
  rcases t with _ | ⟨a, _ | ⟨b, _ | ⟨c, _ | ⟨d, _ | ⟨e, _ | ⟨f, _ | ⟨g, r⟩⟩⟩⟩⟩⟩⟩ <;>
    simp [isRedditComment6] at h
  obtain ⟨⟨h1, h2⟩, h3⟩ := h
  exact ⟨b, d, f, by rw [h1, h2, h3]⟩

theorem isPagePost_inv {t : List String} (h : isPagePost t = true) :
    ∃ p i, t = [p, "posts", i] := by
  rcases t with _ | ⟨a, _ | ⟨b, _ | ⟨c, _ | ⟨d, r⟩⟩⟩⟩ <;> simp [isPagePost] at h
  exact ⟨a, c, by rw [h]⟩

theorem isReel_inv {t : List String} (h : isReel t = true) : ∃ i, t = ["reel", i] := by
  rcases t with _ | ⟨a, _ | ⟨b, _ | ⟨c, r⟩⟩⟩ <;> simp [isReel] at h
  exact ⟨b, by rw [h]⟩

theorem isGroupPost_inv {t : List String} (h : isGroupPost t = true) :
    ∃ g i, t = ["groups", g, "permalink", i] := by
  rcases t with _ | ⟨a, _ | ⟨b, _ | ⟨c, _ | ⟨d, _ | ⟨e, r⟩⟩⟩⟩⟩ <;>
    simp [isGroupPost] at h
  obtain ⟨h1, h2⟩ := h
  exact ⟨b, d, by rw [h1, h2]⟩

theorem isPermalinkPhp_inv {t : List String} (h : isPermalinkPhp t = true) :
    t = ["permalink.php"] := by
  rcases t with _ | ⟨a, _ | ⟨b, r⟩⟩ <;> simp [isPermalinkPhp] at h
  rw [h]

theorem isPhotoPhp_inv {t : List String} (h : isPhotoPhp t = true) :
    t = ["photo.php"] := by
  rcases t with _ | ⟨a, _ | ⟨b, r⟩⟩ <;> simp [isPhotoPhp] at h
  rw [h]

theorem popIfEmpty_subset (l : List String) : popIfEmpty l ⊆ l := by
  unfold popIfEmpty
  split
  · exact List.dropLast_subset l
  · exact List.Subset.refl l

theorem lastLookup_mem {ps : List (String × String)} {k w : String}
    (h : lastLookup ps k = some w) : ∃ p ∈ ps, (p : String × String).2 = w := by
  unfold lastLookup at h
  cases hg : (ps.filter (fun p => p.1 == k)).getLast? with
  | none => rw [hg] at h; simp at h
  | some p =>
    have hmem := mem_of_getLast?_eq hg
    rw [List.mem_filter] at hmem
    rw [hg] at h
    exact ⟨p, hmem.1, by simpa using h⟩

/-! ## Re-cleaning canonical forms is the identity -/

theorem reclean_reddit_post {sch host b d : String}
    (hsch : sch = "https" ∨ sch = "http")
    (hdom : domainStr host = some "reddit.com") (hd : d ≠ "") :
    clean_core ⟨sch, host, ["r", b, "comments", d], []⟩ =
      .ok ⟨sch, host, ["r", b, "comments", d], []⟩ := by
  simp [clean_core, RedditCleaner.clean, hsch, hdom, hd, popIfEmpty, popLast,
    isRedditPost5, isRedditPost4, isRedditComment6]

theorem reclean_reddit_comment {sch host b d f : String}
    (hsch : sch = "https" ∨ sch = "http")
    (hdom : domainStr host = some "reddit.com") (hf : f ≠ "") :
    clean_core ⟨sch, host, ["r", b, "comments", d, "comment", f], []⟩ =
      .ok ⟨sch, host, ["r", b, "comments", d, "comment", f], []⟩ := by
  simp [clean_core, RedditCleaner.clean, hsch, hdom, hf, popIfEmpty, popLast,
    isRedditPost5, isRedditPost4, isRedditComment6]

theorem reclean_fb_page_post {sch host p i : String}
    (hsch : sch = "https" ∨ sch = "http")
    (hdom : domainStr host = some "facebook.com") (hi : i ≠ "") :
    clean_core ⟨sch, host, [p, "posts", i], []⟩ = .ok ⟨sch, host, [p, "posts", i], []⟩ := by
  simp [clean_core, FacebookCleaner.clean, hsch, hdom, hi, popIfEmpty,
    isPagePost, isReel, isGroupPost, isPermalinkPhp, isPhotoPhp, hasKey]

theorem reclean_fb_reel {sch host i : String}
    (hsch : sch = "https" ∨ sch = "http")
    (hdom : domainStr host = some "facebook.com") (hi : i ≠ "") :
    clean_core ⟨sch, host, ["reel", i], []⟩ = .ok ⟨sch, host, ["reel", i], []⟩ := by
  simp [clean_core, FacebookCleaner.clean, hsch, hdom, hi, popIfEmpty,
    isPagePost, isReel, isGroupPost, isPermalinkPhp, isPhotoPhp, hasKey]

theorem reclean_fb_group {sch host g i : String}
    (hsch : sch = "https" ∨ sch = "http")
    (hdom : domainStr host = some "facebook.com") (hi : i ≠ "") :
    clean_core ⟨sch, host, ["groups", g, "permalink", i], []⟩ =
      .ok ⟨sch, host, ["groups", g, "permalink", i], []⟩ := by
  simp [clean_core, FacebookCleaner.clean, hsch, hdom, hi, popIfEmpty,
    isPagePost, isReel, isGroupPost, isPermalinkPhp, isPhotoPhp, hasKey]

theorem reclean_fb_group_comment {sch host g i cv : String}
    (hsch : sch = "https" ∨ sch = "http")
    (hdom : domainStr host = some "facebook.com") (hi : i ≠ "") :
    clean_core ⟨sch, host, ["groups", g, "permalink", i], [("comment_id", cv)]⟩ =
      .ok ⟨sch, host, ["groups", g, "permalink", i], [("comment_id", cv)]⟩ := by
  simp [clean_core, FacebookCleaner.clean, hsch, hdom, hi, popIfEmpty,
    isPagePost, isReel, isGroupPost, isPermalinkPhp, isPhotoPhp, hasKey, lastLookup]

theorem reclean_fb_permalink {sch host sv iv : String}
    (hsch : sch = "https" ∨ sch = "http")
    (hdom : domainStr host = some "facebook.com") :
    clean_core ⟨sch, host, ["permalink.php"], [("story_fbid", sv), ("id", iv)]⟩ =
      .ok ⟨sch, host, ["permalink.php"], [("story_fbid", sv), ("id", iv)]⟩ := by
  simp [clean_core, FacebookCleaner.clean, hsch, hdom, popIfEmpty,
    isPagePost, isReel, isGroupPost, isPermalinkPhp, isPhotoPhp, hasKey, lastLookup]

theorem reclean_fb_photo {sch host fv : String}
    (hsch : sch = "https" ∨ sch = "http")
    (hdom : domainStr host = some "facebook.com") :
    clean_core ⟨sch, host, ["photo.php"], [("fbid", fv)]⟩ =
      .ok ⟨sch, host, ["photo.php"], [("fbid", fv)]⟩ := by
  simp [clean_core, FacebookCleaner.clean, hsch, hdom, popIfEmpty,
    isPagePost, isReel, isGroupPost, isPermalinkPhp, isPhotoPhp, hasKey, lastLookup]

theorem reddit_clean_ok_inv {u v : Url} (h : RedditCleaner.clean u = .ok v) :
    v.scheme = u.scheme ∧ v.host = u.host ∧ v.query = [] ∧
    v.pathSegs ⊆ u.pathSegs ∧
    ((∃ b d, v.pathSegs = ["r", b, "comments", d]) ∨
     (∃ b d f, v.pathSegs = ["r", b, "comments", d, "comment", f])) := by
  unfold RedditCleaner.clean at h
  split at h
  · exact absurd h (by simp)
  next domain hdom =>
    split at h
    · exact absurd h (by simp)
    next hdr =>
      dsimp only [] at h
      split at h
      next hshape => exact absurd h (by simp)
      next hshape =>
        split at h
        next h5 =>
          obtain ⟨b, d, e, ht⟩ := isRedditPost5_inv h5
          rw [CleanOutcome.ok.injEq] at h
          subst h
          have hpop : popLast (popIfEmpty u.pathSegs) = ["r", b, "comments", d] := by
            rw [ht]; simp [popLast]
          refine ⟨rfl, rfl, rfl, ?_, Or.inl ⟨b, d, hpop⟩⟩
          show popLast (popIfEmpty u.pathSegs) ⊆ u.pathSegs
          rw [hpop]
          intro x hx
          apply popIfEmpty_subset u.pathSegs
          rw [ht]
          simp only [List.mem_cons, List.not_mem_nil, or_false] at hx
          rcases hx with rfl | rfl | rfl | rfl <;> simp
        next h5 =>
          rw [CleanOutcome.ok.injEq] at h
          subst h
          refine ⟨rfl, rfl, rfl, popIfEmpty_subset u.pathSegs, ?_⟩
          have hpc : isRedditPost4 (popIfEmpty u.pathSegs) = true ∨
              isRedditComment6 (popIfEmpty u.pathSegs) = true := by
            by_cases h4 : isRedditPost4 (popIfEmpty u.pathSegs) = true
            · exact Or.inl h4
            · by_cases h6 : isRedditComment6 (popIfEmpty u.pathSegs) = true
              · exact Or.inr h6
              · exact absurd (by simp [eq_false_of_ne_true h5, eq_false_of_ne_true h4,
                  eq_false_of_ne_true h6]) hshape
          rcases hpc with hp | hc
          · obtain ⟨b, d, ht⟩ := isRedditPost4_inv hp
            exact Or.inl ⟨b, d, ht⟩
          · obtain ⟨b, d, f, ht⟩ := isRedditComment6_inv hc
            exact Or.inr ⟨b, d, f, ht⟩

theorem facebook_clean_ok_inv {u v : Url} (h : FacebookCleaner.clean u = .ok v) :
    v.scheme = u.scheme ∧ v.host = u.host ∧ v.pathSegs ⊆ u.pathSegs ∧
    ((v.query = [] ∧
       ((∃ p i, v.pathSegs = [p, "posts", i]) ∨ (∃ i, v.pathSegs = ["reel", i]) ∨
        (∃ g i, v.pathSegs = ["groups", g, "permalink", i]))) ∨
     (∃ sv iv, v.pathSegs = ["permalink.php"] ∧
       v.query = [("story_fbid", sv), ("id", iv)] ∧
       lastLookup u.query "story_fbid" = some sv ∧ lastLookup u.query "id" = some iv) ∨
     (∃ fv, v.pathSegs = ["photo.php"] ∧ v.query = [("fbid", fv)] ∧
       lastLookup u.query "fbid" = some fv) ∨
     (∃ g i cv, v.pathSegs = ["groups", g, "permalink", i] ∧
       v.query = [("comment_id", cv)] ∧ lastLookup u.query "comment_id" = some cv)) := by
  unfold FacebookCleaner.clean at h
  dsimp only [] at h
  split at h
  next hE =>
    rw [CleanOutcome.ok.injEq] at h
    subst h
    refine ⟨rfl, rfl, popIfEmpty_subset u.pathSegs, Or.inl ⟨rfl, ?_⟩⟩
    simp only [Bool.or_eq_true, Bool.and_eq_true] at hE
    rcases hE with (hp | hr) | ⟨hg, _⟩
    · obtain ⟨p, i, ht⟩ := isPagePost_inv hp
      exact Or.inl ⟨p, i, ht⟩
    · obtain ⟨i, ht⟩ := isReel_inv hr
      exact Or.inr (Or.inl ⟨i, ht⟩)
    · obtain ⟨g, i, ht⟩ := isGroupPost_inv hg
      exact Or.inr (Or.inr ⟨g, i, ht⟩)
  next hE =>
    split at h
    next hPL =>
      have ht := isPermalinkPhp_inv hPL
      split at h
      next sv hsf =>
        split at h
        next iv hid =>
          rw [CleanOutcome.ok.injEq] at h
          subst h
          refine ⟨rfl, rfl, ?_, Or.inr (Or.inl ⟨sv, iv, ht, rfl, hsf, hid⟩)⟩
          show popIfEmpty u.pathSegs ⊆ u.pathSegs
          exact popIfEmpty_subset u.pathSegs
        next => exact absurd h (by simp)
      next => exact absurd h (by simp)
    next hPL =>
      split at h
      next hPH =>
        have ht := isPhotoPhp_inv hPH
        split at h
        next fv hfb =>
          rw [CleanOutcome.ok.injEq] at h
          subst h
          refine ⟨rfl, rfl, ?_, Or.inr (Or.inr (Or.inl ⟨fv, ht, rfl, hfb⟩))⟩
          show popIfEmpty u.pathSegs ⊆ u.pathSegs
          exact popIfEmpty_subset u.pathSegs
        next => exact absurd h (by simp)
      next hPH =>
        split at h
        next hG =>
          rw [Bool.and_eq_true] at hG
          obtain ⟨g, i, ht⟩ := isGroupPost_inv hG.1
          split at h
          next cv hcv =>
            rw [CleanOutcome.ok.injEq] at h
            subst h
            refine ⟨rfl, rfl, ?_, Or.inr (Or.inr (Or.inr ⟨g, i, cv, ht, rfl, hcv⟩))⟩
            show popIfEmpty u.pathSegs ⊆ u.pathSegs
            exact popIfEmpty_subset u.pathSegs
          next => exact absurd h (by simp)
        next => exact absurd h (by simp)

/-! ## Inversion of a successful cleaning into its canonical families -/

theorem clean_core_canonical {u v : Url} (hwf : UrlWf u)
    (hcore : clean_core u = .ok v) (hlast : v.pathSegs.getLast? ≠ some "") :
    UrlWf v ∧ (v.scheme = "http" ∨ v.scheme = "https") ∧ clean_core v = .ok v := by
  unfold clean_core at hcore
  split at hcore
  · exact absurd hcore (by simp)
  next hsch' =>
    have hsch : u.scheme = "https" ∨ u.scheme = "http" := not_not.mp hsch'
    split at hcore
    case h_2 => exact absurd hcore (by simp)
    next domain hdom =>
      by_cases hdr : domain = "reddit.com"
      · subst hdr
        rw [if_pos rfl] at hcore
        obtain ⟨vs, vh, vp, vq⟩ := v
        obtain ⟨hs, hh, hq, hsub, hshape⟩ := reddit_clean_ok_inv hcore
        dsimp only [] at hs hh hq hsub hshape hlast
        subst hs
        subst hh
        subst hq
        have hsegok : ∀ s ∈ vp, ∀ c ∈ String.toList s, c ≠ '/' ∧ c ≠ '?' :=
          fun s hs => hwf.segs_ok s (hsub hs)
        have hwfv : UrlWf ⟨u.scheme, u.host, vp, []⟩ := by
          refine ⟨hwf.host_ne, hwf.host_ok, ?_, hsegok, by simp, by simp⟩
          rcases hshape with ⟨b, d, hvp⟩ | ⟨b, d, f, hvp⟩ <;> simp [hvp]
        refine ⟨hwfv, hsch.symm, ?_⟩
        rcases hshape with ⟨b, d, hvp⟩ | ⟨b, d, f, hvp⟩
        · subst hvp
          have hd : d ≠ "" := by
            intro hd0
            exact hlast (by simp [hd0])
          exact reclean_reddit_post hsch hdom hd
        · subst hvp
          have hf : f ≠ "" := by
            intro hf0
            exact hlast (by simp [hf0])
          exact reclean_reddit_comment hsch hdom hf
      · by_cases hdf : domain = "facebook.com"
        · subst hdf
          rw [if_neg hdr, if_pos rfl] at hcore
          obtain ⟨vs, vh, vp, vq⟩ := v
          obtain ⟨hs, hh, hsub, hshape⟩ := facebook_clean_ok_inv hcore
          dsimp only [] at hs hh hsub hshape hlast
          subst hs
          subst hh
          have hsegok : ∀ s ∈ vp, ∀ c ∈ String.toList s, c ≠ '/' ∧ c ≠ '?' :=
            fun s hs => hwf.segs_ok s (hsub hs)
          have hvalok : ∀ w : String, (∃ p ∈ u.query, (p : String × String).2 = w) →
              ∀ c ∈ w.toList, c ≠ '&' := by
            rintro w ⟨p, hp, rfl⟩
            exact hwf.vals_ok p hp
          rcases hshape with ⟨hq, hsh⟩ | ⟨sv, iv, hvp, hq, hsf, hid⟩ |
            ⟨fv, hvp, hq, hfb⟩ | ⟨g, i, cv, hvp, hq, hcv⟩
          · subst hq
            have hwfv : UrlWf ⟨u.scheme, u.host, vp, []⟩ := by
              refine ⟨hwf.host_ne, hwf.host_ok, ?_, hsegok, by simp, by simp⟩
              rcases hsh with ⟨p, i, hvp⟩ | ⟨i, hvp⟩ | ⟨g, i, hvp⟩ <;> simp [hvp]
            refine ⟨hwfv, hsch.symm, ?_⟩
            rcases hsh with ⟨p, i, hvp⟩ | ⟨i, hvp⟩ | ⟨g, i, hvp⟩ <;> subst hvp
            · have hi : i ≠ "" := fun h0 => hlast (by simp [h0])
              exact reclean_fb_page_post hsch hdom hi
            · have hi : i ≠ "" := fun h0 => hlast (by simp [h0])
              exact reclean_fb_reel hsch hdom hi
            · have hi : i ≠ "" := fun h0 => hlast (by simp [h0])
              exact reclean_fb_group hsch hdom hi
          · subst hvp
            subst hq
            have hwfv : UrlWf ⟨u.scheme, u.host, ["permalink.php"],
                [("story_fbid", sv), ("id", iv)]⟩ := by
              refine ⟨hwf.host_ne, hwf.host_ok, by simp, hsegok, ?_, ?_⟩
              · intro p hp c hc
                rcases List.mem_cons.mp hp with rfl | hp'
                · exact (by decide :
                    ∀ x ∈ ("story_fbid" : String).toList, x ≠ '&' ∧ x ≠ '=') c hc
                · rcases List.mem_cons.mp hp' with rfl | hp''
                  · exact (by decide :
                      ∀ x ∈ ("id" : String).toList, x ≠ '&' ∧ x ≠ '=') c hc
                  · simp at hp''
              · intro p hp c hc
                rcases List.mem_cons.mp hp with rfl | hp'
                · exact hvalok sv (lastLookup_mem hsf) c hc
                · rcases List.mem_cons.mp hp' with rfl | hp''
                  · exact hvalok iv (lastLookup_mem hid) c hc
                  · simp at hp''
            exact ⟨hwfv, hsch.symm, reclean_fb_permalink hsch hdom⟩
          · subst hvp
            subst hq
            have hwfv : UrlWf ⟨u.scheme, u.host, ["photo.php"], [("fbid", fv)]⟩ := by
              refine ⟨hwf.host_ne, hwf.host_ok, by simp, hsegok, ?_, ?_⟩
              · intro p hp c hc
                rcases List.mem_cons.mp hp with rfl | hp'
                · exact (by decide :
                    ∀ x ∈ ("fbid" : String).toList, x ≠ '&' ∧ x ≠ '=') c hc
                · simp at hp'
              · intro p hp c hc
                rcases List.mem_cons.mp hp with rfl | hp'
                · exact hvalok fv (lastLookup_mem hfb) c hc
                · simp at hp'
            exact ⟨hwfv, hsch.symm, reclean_fb_photo hsch hdom⟩
          · subst hvp
            subst hq
            have hi : i ≠ "" := fun h0 => hlast (by simp [h0])
            have hwfv : UrlWf ⟨u.scheme, u.host, ["groups", g, "permalink", i],
                [("comment_id", cv)]⟩ := by
              refine ⟨hwf.host_ne, hwf.host_ok, by simp, hsegok, ?_, ?_⟩
              · intro p hp c hc
                rcases List.mem_cons.mp hp with rfl | hp'
                · exact (by decide :
                    ∀ x ∈ ("comment_id" : String).toList, x ≠ '&' ∧ x ≠ '=') c hc
                · simp at hp'
              · intro p hp c hc
                rcases List.mem_cons.mp hp with rfl | hp'
                · exact hvalok cv (lastLookup_mem hcv) c hc
                · simp at hp'
            exact ⟨hwfv, hsch.symm, reclean_fb_group_comment hsch hdom hi⟩
        · rw [if_neg hdr, if_neg hdf] at hcore
          exact absurd hcore (by simp)

/-- Claim C7 (amended): `clean_url` is idempotent on its successes,
provided the cleaned URL's final path segment is nonempty: for every input
string that parses to a well-formed URL and cleans to `Ok c`, cleaning `c`
again returns exactly `c`, byte-identical.  (Cleaning can emit a URL with
a trailing empty segment — e.g. from `.../comments//slug` — and such an
output fails to re-clean; see the counterexample.) -/
theorem clean_url_idempotent (s : String) (u v : Url)
    (hparse : parseUrl s = some u) (hwf : UrlWf u)
    (hcore : clean_core u = .ok v) (hlast : v.pathSegs.getLast? ≠ some "") :
    clean_url_str s = .ok v.render ∧ clean_url_str v.render = .ok v.render := by
  obtain ⟨hwfv, hschv, hcv⟩ := clean_core_canonical hwf hcore hlast
  constructor
  · unfold clean_url_str
    rw [hparse]
    show CleanOutcome.map Url.render (clean_core u) = .ok v.render
    rw [hcore]
    rfl
  · unfold clean_url_str
    rw [parse_render hwfv hschv]
    show CleanOutcome.map Url.render (clean_core v) = .ok v.render
    rw [hcv]
    rfl

/-- Counterexample for C7 as stated: this input cleans to Ok, but
cleaning the output again yields Unsupported-Path, not Ok. -/
theorem clean_url_idempotent_cex :
    clean_url_str "https://www.reddit.com/r/x/comments//a" =
      .ok "https://www.reddit.com/r/x/comments/" ∧
    clean_url_str "https://www.reddit.com/r/x/comments/" = .err .UnsupportedUrlPath ∧
    (clean_url_str "https://www.reddit.com/r/x/comments/").isOk = false := by
  refine ⟨by decide, by decide, by decide⟩

/-- Witness for C7 (amended): a slugged reddit post URL cleans to its
canonical form, and cleaning that form is the identity. -/
theorem clean_url_idempotent_witness :
    clean_url_str "https://www.reddit.com/r/a/comments/b/slug/?utm_source=share" =
      .ok "https://www.reddit.com/r/a/comments/b" ∧
    clean_url_str "https://www.reddit.com/r/a/comments/b" =
      .ok "https://www.reddit.com/r/a/comments/b" := by
  have h := clean_url_idempotent
    "https://www.reddit.com/r/a/comments/b/slug/?utm_source=share"
    ⟨"https", "www.reddit.com", ["r", "a", "comments", "b", "slug", ""],
      [("utm_source", "share")]⟩
    ⟨"https", "www.reddit.com", ["r", "a", "comments", "b"], []⟩
    (by decide) (by refine ⟨?_, ?_, ?_, ?_, ?_, ?_⟩ <;> decide) (by decide) (by decide)
  have hr : Url.render ⟨"https", "www.reddit.com", ["r", "a", "comments", "b"], []⟩ =
      "https://www.reddit.com/r/a/comments/b" := by decide
  rw [hr] at h
  exact h
